import Mathlib

/-!
Verification development for the `graphene_sqlalchemy` core
(`types.py` and `fields.py`): a shallow embedding of the
field-construction/merging algorithm and of the connection-field logic,
together with theorems about the properties claimed of them.

Conventions of the embedding:
* Python values that flow through keyword-argument dictionaries are
  modelled by the opaque value type `PyVal`; `PyVal.none` is Python's
  `None`.
* Python `dict` / `OrderedDict` objects are modelled as association
  lists with unique keys in insertion order (`Dict`): item assignment
  updates the first matching key in place or appends, exactly the
  CPython ordering semantics.  All dictionaries manipulated by the code
  are built through these operations, so keys stay unique.
* Fallible code returns `Except String`; a raised exception is
  `Except.error` carrying the message.
* Calls into external collaborators (the conversion functions of
  `converter.py`, `graphql_relay.connection_from_list_slice`, the
  registry) are modelled by opaque constructors that record exactly the
  arguments the source passes to them.
-/

namespace GrapheneSqlalchemy

/-- Opaque model of a Python value stored in a keyword-argument
dictionary.  `PyVal.none` is Python's `None`; `obj` tags any other
object by an identifying string. -/
inductive PyVal where
  | none
  | bool (b : Bool)
  | str (s : String)
  | int (n : Int)
  | obj (tag : String)
deriving DecidableEq, Repr

/-- A Python `dict`/`OrderedDict` with `String` keys: an association
list in insertion order, with unique keys maintained by the operations
below. -/
abbrev Dict (α : Type) := List (String × α)

/-- Python `k in d`. -/
def dictContains {α : Type} : Dict α → String → Bool
  | [], _ => false
  | p :: rest, k => if p.1 = k then true else dictContains rest k

/-- Python `d.get(k)` / `d[k]` lookup (first occurrence; keys are unique
in every dictionary the code builds). -/
def dictGet {α : Type} : Dict α → String → Option α
  | [], _ => Option.none
  | p :: rest, k => if p.1 = k then some p.2 else dictGet rest k

/-- Python `d[k] = v`: replace the value in place if the key is present
(keeping its position), otherwise append at the end. -/
def dictSet {α : Type} : Dict α → String → α → Dict α
  | [], k, v => [(k, v)]
  | p :: rest, k, v => if p.1 = k then (k, v) :: rest else p :: dictSet rest k v

/-- Python `d.pop(k)` / `del d[k]`: drop every entry with the key (on
the unique-key dictionaries of the code, the one entry). -/
def dictRemove {α : Type} : Dict α → String → Dict α
  | [], _ => []
  | p :: rest, k => if p.1 = k then dictRemove rest k else p :: dictRemove rest k

/-- Python `d.update(e)`: item-assign every entry of `e` into `d`, in
order. -/
def dictUpdate {α : Type} (d e : Dict α) : Dict α :=
  e.foldl (fun acc p => dictSet acc p.1 p.2) d

/-- Python `d.setdefault(k, v)`. -/
def dictSetdefault {α : Type} (d : Dict α) (k : String) (v : α) : Dict α :=
  if dictContains d k then d else d ++ [(k, v)]

/-- Python `OrderedDict(pairs)`: item-assign the pairs into an empty
dictionary in order (a duplicate key keeps its first position and takes
its last value). -/
def odictOfList {α : Type} (l : List (String × α)) : Dict α :=
  l.foldl (fun acc p => dictSet acc p.1 p.2) []

/-! ## `types.py`: `ORMField` -/

/-- An `ORMField` override as it exists after `ORMField.__init__`
(`types.py` lines 26-88): the `OrderedType` creation counter and the
merged keyword-argument dictionary.  The global `OrderedType` counter
that supplies fresh counters lives in the external `graphene` package;
counters are therefore explicit data here. -/
structure ORMField where
  creation_counter : Nat
  kwargs : Dict PyVal
deriving DecidableEq, Repr

/-- `ORMField.__init__`: the six common options are gathered in a fixed
order, every `None`-valued one is dropped, and the survivors are
`update`d into the passthrough keyword arguments (`types.py` lines
76-88).  In Python the six names can never occur in `field_kwargs`
because the interpreter binds them to the named parameters. -/
def ORMField.make (model_attr type required description deprecation_reason batching : PyVal)
    (creation_counter : Nat) (field_kwargs : Dict PyVal) : ORMField :=
  let common_kwargs : Dict PyVal :=
    [("model_attr", model_attr), ("type", type), ("required", required),
     ("description", description), ("deprecation_reason", deprecation_reason),
     ("batching", batching)].filter (fun p => decide (p.2 ≠ PyVal.none))
  { creation_counter := creation_counter, kwargs := dictUpdate field_kwargs common_kwargs }

/-- The `ORMField(model_attr=orm_field_name)` objects freshly created
for automatic fields (`types.py` line 151).  Their creation counters
are drawn from graphene's global counter and are never read again by
this module, so they are modelled as `0`. -/
def autoORMField (orm_field_name : String) : ORMField :=
  ORMField.make (PyVal.str orm_field_name) PyVal.none PyVal.none PyVal.none PyVal.none
    PyVal.none 0 []

/-! ## `types.py`: the model-attribute side of `construct_fields` -/

/-- The SQLAlchemy property kinds `construct_fields` dispatches on:
`ColumnProperty`, `CompositeProperty`, `hybrid_property`,
`RelationshipProperty`, and anything else (`types.py` lines 160-176). -/
inductive AttrKind where
  | column
  | composite
  | hybrid
  | relationship
  | other
deriving DecidableEq, Repr

/-- One SQLAlchemy model attribute as reported by `sqlalchemy.inspect`:
its property kind plus an opaque identity tag. -/
structure ModelAttr where
  kind : AttrKind
  tag : String
deriving DecidableEq, Repr

/-- The slice of `sqlalchemy.inspect(model)` that `construct_fields`
reads (`types.py` lines 110-118): four ordered name/attribute listings,
in the order the metadata provider reports them. -/
structure InspectedModel where
  column_attrs : List (String × ModelAttr)
  composites : List (String × ModelAttr)
  all_orm_descriptors : List (String × ModelAttr)
  relationships : List (String × ModelAttr)
deriving DecidableEq, Repr

/-- The hybrid-property entries of `all_orm_descriptors`
(`types.py` lines 115-116). -/
def hybridDescriptors (m : InspectedModel) : List (String × ModelAttr) :=
  m.all_orm_descriptors.filter (fun p => decide (p.2.kind = AttrKind.hybrid))

/-- `all_model_attrs` (`types.py` lines 112-118): one `OrderedDict`
over the concatenation of plain columns, composites, hybrids and
relationships. -/
def allModelAttrs (m : InspectedModel) : Dict ModelAttr :=
  odictOfList (m.column_attrs ++ m.composites ++ hybridDescriptors m ++ m.relationships)

/-- `auto_orm_field_names` (`types.py` lines 120-125): the attribute
names that survive the `only_fields` / `exclude_fields` filter, in
`all_model_attrs` order. -/
def autoOrmFieldNames (ams : Dict ModelAttr) (only_fields exclude_fields : List String) :
    List String :=
  (ams.filter (fun p =>
    decide (¬((only_fields ≠ [] ∧ p.1 ∉ only_fields) ∨ p.1 ∈ exclude_fields)))).map
    Prod.fst

/-! ## `types.py`: the declared type and the field outputs -/

/-- The inputs `construct_fields` reads off the declared
`SQLAlchemyObjectType` subclass: its name, the field names for which a
custom `resolve_<name>` function exists (consulted by
`get_custom_resolver`), and the `ORMField` declarations found by
walking `reversed(obj_type.__mro__)` base-to-derived (`types.py` lines
128-133), flattened in that traversal order.  List positions stand for
Python object identities: the entries are distinct objects whose
mutation `construct_fields` performs in place. -/
structure ObjType where
  name : String
  custom_resolvers : List String
  decls : List (String × ORMField)
deriving DecidableEq, Repr

/-- The resolver chosen at `types.py` line 158: a user-defined
`resolve_<field>` function when one exists, else the plain
attribute-read resolver bound to the model attribute name. -/
inductive Resolver where
  | custom (objTypeName fieldName : String)
  | attr (objTypeName attrName : String)
deriving DecidableEq, Repr

/-- The result of one conversion-function call (`converter.py` is an
external collaborator): an opaque record of exactly the arguments
`construct_fields` passes at `types.py` lines 160-174. -/
inductive GField where
  | fromColumn (attr : ModelAttr) (registry : String) (resolver : Resolver)
      (kwargs : Dict PyVal)
  | fromRelationship (attr : ModelAttr) (objTypeName : String)
      (connection_field_factory : Option String) (batching : PyVal)
      (orm_field_name : String) (kwargs : Dict PyVal)
  | fromComposite (attr : ModelAttr) (registry : String) (resolver : Resolver)
  | fromHybrid (attr : ModelAttr) (resolver : Resolver) (kwargs : Dict PyVal)
deriving DecidableEq, Repr

/-- An entry of the `orm_fields` dictionary (`types.py` lines 147-151):
either a reference to the declared `ORMField` object at a given
position of `ObjType.decls` (a shared, mutable object), or a fresh
automatic `ORMField`. -/
inductive FieldRef where
  | decl (i : Nat)
  | auto (f : ORMField)
deriving DecidableEq, Repr

/-- What one call of `construct_fields` produces: the returned ordered
field mapping, plus the post-call state of the `ORMField` objects
declared on the type (which the call mutates in place: `types.py` lines
144, 156, 163). -/
structure CFResult where
  fields : List (String × GField)
  decls2 : List (String × ORMField)
deriving DecidableEq, Repr

/-! ## `types.py`: `construct_fields` (lines 91-181) -/

/-- Pair every declared `ORMField` with its position, which stands for
the Python object identity. -/
def withIndices : List (String × ORMField) → Nat → List (Nat × String × ORMField)
  | [], _ => []
  | (n, f) :: rest, i => (i, n, f) :: withIndices rest (i + 1)

/-- Strict comparison on (creation counter, original position):
`sorted(custom_orm_fields_items, key=lambda item: item[1])` is a stable
sort by the `OrderedType` creation counter (`types.py` line 134), which
is exactly the unique ordering by this lexicographic key. -/
def declLT (a b : Nat × String × ORMField) : Prop :=
  a.2.2.creation_counter < b.2.2.creation_counter ∨
    (a.2.2.creation_counter = b.2.2.creation_counter ∧ a.1 < b.1)

instance (a b : Nat × String × ORMField) : Decidable (declLT a b) := by
  unfold declLT; infer_instance

/-- Insert into a list sorted by `declLT`. -/
def insertDecl (x : Nat × String × ORMField) :
    List (Nat × String × ORMField) → List (Nat × String × ORMField)
  | [] => [x]
  | y :: ys => if declLT x y then x :: y :: ys else y :: insertDecl x ys

/-- The stable sort of the collected `ORMField` declarations by
creation counter (`types.py` line 134). -/
def sortByCounter : List (Nat × String × ORMField) → List (Nat × String × ORMField)
  | [] => []
  | x :: xs => insertDecl x (sortByCounter xs)

/-- The target attribute name of an override (`types.py` line 138):
`orm_field.kwargs.get('model_attr', orm_field_name)`.  A non-string
`model_attr` value can never equal a string key of `all_model_attrs`,
so it resolves to no attribute. -/
def resolveModelAttr (orm_field_name : String) (kwargs : Dict PyVal) : Option String :=
  match dictGet kwargs "model_attr" with
  | some (PyVal.str s) => some s
  | some _ => Option.none
  | Option.none => some orm_field_name

/-- The `ValueError` message of `types.py` lines 140-143. -/
def cannotMapMessage (typeName fieldName : String) : String :=
  "Cannot map ORMField to a model attribute. Field: " ++ typeName ++ "." ++ fieldName

/-- One iteration of the `types.py` lines 137-144 loop: resolve the
target attribute name against `all_model_attrs` (the unfiltered
mapping), raise if absent, and store the resolved name back into the
override's `kwargs`. -/
def setModelAttr1 (ams : Dict ModelAttr) (typeName fieldName : String) (f : ORMField) :
    Except String ORMField :=
  match resolveModelAttr fieldName f.kwargs with
  | some a =>
    if dictContains ams a then
      Except.ok { f with kwargs := dictSet f.kwargs "model_attr" (PyVal.str a) }
    else
      Except.error (cannotMapMessage typeName fieldName)
  | Option.none => Except.error (cannotMapMessage typeName fieldName)

/-- The whole `types.py` lines 137-144 loop, over the sorted
declarations. -/
def setModelAttrsList (ams : Dict ModelAttr) (typeName : String) :
    List (Nat × String × ORMField) → Except String (List (Nat × String × ORMField))
  | [] => Except.ok []
  | (i, n, f) :: rest =>
    match setModelAttr1 ams typeName n f with
    | Except.error e => Except.error e
    | Except.ok f2 =>
      match setModelAttrsList ams typeName rest with
      | Except.error e => Except.error e
      | Except.ok rest2 => Except.ok ((i, n, f2) :: rest2)

/-- Write the mutated override objects back at their positions. -/
def applyUpdates (store : List (String × ORMField)) :
    List (Nat × String × ORMField) → List (String × ORMField)
  | [] => store
  | (i, n, f) :: rest => applyUpdates (store.set i (n, f)) rest

/-- `orm_fields` (`types.py` lines 146-151): an `OrderedDict` over the
sorted custom declarations (so a repeated exposed name keeps the
last-sorted object), then one fresh automatic `ORMField` appended per
filtered attribute name not already present. -/
def ormFieldRefs (sorted2 : List (Nat × String × ORMField)) (autoNames : List String) :
    List (String × FieldRef) :=
  let customs := odictOfList (sorted2.map (fun t => (t.2.1, FieldRef.decl t.1)))
  autoNames.foldl
    (fun acc n => if dictContains acc n then acc else acc ++ [(n, FieldRef.auto (autoORMField n))])
    customs

/-- The `ValueError` message of `types.py` lines 169-171. -/
def compositeMessage (typeName fieldName : String) : String :=
  "ORMField kwargs for composite fields must be empty. Field: " ++ typeName ++ "." ++ fieldName

/-- One iteration of the build loop (`types.py` lines 155-179) on one
`ORMField`: pop `model_attr`, look up the attribute, pick the resolver,
dispatch on the property kind, and return the converted field together
with the override object as the loop leaves it (its `kwargs` popped). -/
def buildOne (ams : Dict ModelAttr) (obj : ObjType) (registry : String) (batching : Bool)
    (connection_field_factory : Option String) (fieldName : String) (f : ORMField) :
    Except String (GField × ORMField) :=
  match dictGet f.kwargs "model_attr" with
  | some (PyVal.str attr_name) =>
    let kwargs1 := dictRemove f.kwargs "model_attr"
    match dictGet ams attr_name with
    | some attr =>
      let resolver := if fieldName ∈ obj.custom_resolvers then
          Resolver.custom obj.name fieldName
        else
          Resolver.attr obj.name attr_name
      match attr.kind with
      | AttrKind.column =>
        Except.ok (GField.fromColumn attr registry resolver kwargs1,
          { f with kwargs := kwargs1 })
      | AttrKind.relationship =>
        let b := (dictGet kwargs1 "batching").getD (PyVal.bool batching)
        let kwargs2 := dictRemove kwargs1 "batching"
        Except.ok
          (GField.fromRelationship attr obj.name connection_field_factory b fieldName kwargs2,
            { f with kwargs := kwargs2 })
      | AttrKind.composite =>
        if attr_name = fieldName ∧ kwargs1 = [] then
          Except.ok (GField.fromComposite attr registry resolver, { f with kwargs := kwargs1 })
        else
          Except.error (compositeMessage obj.name fieldName)
      | AttrKind.hybrid =>
        Except.ok (GField.fromHybrid attr resolver kwargs1, { f with kwargs := kwargs1 })
      | AttrKind.other => Except.error "Property type is not supported"
    | Option.none => Except.error "KeyError: model attribute lookup failed"
  | _ => Except.error "KeyError: model_attr"

/-- The build loop (`types.py` lines 153-179) over the `orm_fields`
entries: each field name is a fresh key of the `fields` dictionary
(`orm_fields` keys are unique), so assignment appends in order; the
mutation of a declared `ORMField` is written back at its position in
the store. -/
def buildFieldsList (ams : Dict ModelAttr) (obj : ObjType) (registry : String) (batching : Bool)
    (connection_field_factory : Option String) :
    List (String × FieldRef) → List (String × ORMField) →
      Except String (List (String × GField) × List (String × ORMField))
  | [], store => Except.ok ([], store)
  | (fieldName, FieldRef.decl i) :: rest, store =>
    match store.get? i with
    | Option.none => Except.error "internal: dangling ORMField reference"
    | some (n0, f) =>
      match buildOne ams obj registry batching connection_field_factory fieldName f with
      | Except.error e => Except.error e
      | Except.ok (gf, f2) =>
        match buildFieldsList ams obj registry batching connection_field_factory rest
            (store.set i (n0, f2)) with
        | Except.error e => Except.error e
        | Except.ok (fs, store2) => Except.ok ((fieldName, gf) :: fs, store2)
  | (fieldName, FieldRef.auto f) :: rest, store =>
    match buildOne ams obj registry batching connection_field_factory fieldName f with
    | Except.error e => Except.error e
    | Except.ok (gf, _) =>
      match buildFieldsList ams obj registry batching connection_field_factory rest store with
      | Except.error e => Except.error e
      | Except.ok (fs, store2) => Except.ok ((fieldName, gf) :: fs, store2)

/-- `construct_fields` (`types.py` lines 91-181).  Besides the returned
ordered field mapping, the result records the post-call state of the
declared `ORMField` objects, which the call mutates in place; a second
call "with the same inputs" therefore receives `CFResult.decls2` as its
declarations. -/
def construct_fields (obj : ObjType) (m : InspectedModel) (registry : String)
    (only_fields exclude_fields : List String) (batching : Bool)
    (connection_field_factory : Option String) : Except String CFResult :=
  let ams := allModelAttrs m
  let autoNames := autoOrmFieldNames ams only_fields exclude_fields
  let sorted1 := sortByCounter (withIndices obj.decls 0)
  match setModelAttrsList ams obj.name sorted1 with
  | Except.error e => Except.error e
  | Except.ok sorted2 =>
    let store0 := applyUpdates obj.decls sorted2
    let refs := ormFieldRefs sorted2 autoNames
    match buildFieldsList ams obj registry batching connection_field_factory refs store0 with
    | Except.error e => Except.error e
    | Except.ok (fieldsList, store1) => Except.ok { fields := fieldsList, decls2 := store1 }

/-! ## `types.py`: `__init_subclass_with_meta__`, field merge (lines 264-267) -/

/-- The merge of the builder output into a pre-existing declared field
set (`types.py` lines 264-267): when `_meta.fields` is non-empty
(truthy), `_meta.fields.update(sqla_fields)`; otherwise the builder
output becomes the field set.  Field values are opaque here. -/
def meta_fields_merge (pre sqla : Dict PyVal) : Dict PyVal :=
  if pre.isEmpty then sqla else dictUpdate pre sqla

/-! ## `types.py`: `is_type_of` (lines 279-285) -/

/-- The facts about a `root` object that `is_type_of` consults:
whether it is already an instance of the generated type
(`isinstance(root, cls)`), whether it is a mapped relational instance,
and the set of class names it is an instance of (so that
`isinstance(root, cls._meta.model)` is membership of the bound model's
name).  `is_mapped_instance` lives in `utils.py`; the `mapped` flag is
modelled from the spec: "a mapped instance of any relational model". -/
structure RootObj where
  instance_of_cls : Bool
  mapped : Bool
  instance_of : List String
deriving DecidableEq, Repr

/-- `SQLAlchemyObjectType.is_type_of` (`types.py` lines 279-285),
parameterised by the bound model's name (`cls._meta.model`).  The
Python message interpolates `repr(root)`; the message is modelled by
its constant prefix. -/
def is_type_of (model : String) (root : RootObj) : Except String Bool :=
  if root.instance_of_cls then Except.ok true
  else if !root.mapped then Except.error "Received incompatible instance"
  else Except.ok (decide (model ∈ root.instance_of))

/-! ## `fields.py`: `UnsortedSQLAlchemyConnectionField.get_query` (lines 36-44) -/

/-- One value of a generated sort enum: `col.value` is the order-by
clause it stands for. -/
structure SortEnumValue where
  value : String
deriving DecidableEq, Repr

/-- The `sort` argument as `get_query` receives it: either a single
enum value (the `isinstance(sort, str)` branch — graphene enum values
are `str` subclasses) or an iterable of enum values. -/
inductive SortArg where
  | single (s : SortEnumValue)
  | many (cols : List SortEnumValue)
deriving DecidableEq, Repr

/-- A SQLAlchemy query object, abstracted to what this module observes:
the model and context it was built from and the order-by clauses
applied so far, in application order. -/
structure Queryable where
  model : String
  context : String
  order_by_clauses : List String
deriving DecidableEq, Repr

/-- Modelled from the spec: `utils.get_query` (the metadata provider's
`query(model, context) -> Queryable` collaborator, not under `src/`)
returns a fresh query for the model with no order-by applied. -/
def utils_get_query (model context : String) : Queryable :=
  { model := model, context := context, order_by_clauses := [] }

/-- `Queryable.order_by(*clauses)` appends the clauses in the given
order (spec: `Queryable.order_by(*clauses) -> Queryable`). -/
def Queryable.order_by (q : Queryable) (clauses : List String) : Queryable :=
  { q with order_by_clauses := q.order_by_clauses ++ clauses }

/-- `UnsortedSQLAlchemyConnectionField.get_query` (`fields.py` lines
36-44): no `sort` applies no order-by; a single (string) sort value is
applied as `order_by(sort.value)`; an iterable is applied as
`order_by(*(col.value for col in sort))`. -/
def connection_get_query (model context : String) (sort : Option SortArg) : Queryable :=
  let query := utils_get_query model context
  match sort with
  | Option.none => query
  | some (SortArg.single s) => query.order_by [s.value]
  | some (SortArg.many cols) => query.order_by (cols.map SortEnumValue.value)

/-! ## `fields.py`: `resolve_connection` (lines 46-66) -/

/-- The value the user resolver produced: either a SQLAlchemy `Query`
(which supports `count()`) or an in-memory iterable. -/
inductive Resolved where
  | query (q : Queryable)
  | items (l : List PyVal)
deriving DecidableEq, Repr

/-- The arguments dictionary of a connection resolution: the `sort`
argument (consumed by `get_query` when the resolver returned nothing)
together with the remaining, opaque arguments. -/
structure ConnArgs where
  sort : Option SortArg
  rest : Dict PyVal
deriving DecidableEq, Repr

/-- The external `graphql_relay.connection_from_list_slice` call,
modelled opaquely as a record of the arguments `resolve_connection`
passes at `fields.py` lines 54-63 (the page-info and edge types are
determined by `connection_type`). -/
structure SliceCall where
  list_slice : Resolved
  args : ConnArgs
  slice_start : Nat
  list_length : Nat
  list_slice_length : Nat
  connection_type : String
deriving DecidableEq, Repr

/-- The connection object `resolve_connection` returns: the slice-call
result with the pre-slice iterable and total length attached
(`fields.py` lines 64-65). -/
structure SQLAConnection where
  slice : SliceCall
  iterable : Resolved
  length : Nat
deriving DecidableEq, Repr

/-- `UnsortedSQLAlchemyConnectionField.resolve_connection` (`fields.py`
lines 46-66).  `count` is the collaborator `Query.count()`; a `None`
resolved value falls back to the default query built from the model and
the `sort` argument. -/
def resolve_connection (count : Queryable → Nat) (connection_type model context : String)
    (args : ConnArgs) (resolved : Option Resolved) : SQLAConnection :=
  let resolvedVal := match resolved with
    | Option.none => Resolved.query (connection_get_query model context args.sort)
    | some v => v
  let len := match resolvedVal with
    | Resolved.query q => count q
    | Resolved.items l => l.length
  { slice :=
      { list_slice := resolvedVal, args := args, slice_start := 0, list_length := len,
        list_slice_length := len, connection_type := connection_type },
    iterable := resolvedVal,
    length := len }

/-! ## `fields.py`: `SQLAlchemyConnectionField.__init__` (lines 82-98) -/

/-- What `SQLAlchemyConnectionField.__init__` observes of the `type` it
is given: whether it is a `Connection` subclass, and the model reached
through `type.Edge.node._type._meta.model` when that attribute chain
succeeds (`Option.none` when any step of the chain raises). -/
structure GType where
  name : String
  is_connection : Bool
  edge_node_model : Option String
deriving DecidableEq, Repr

/-- Modelled from the spec: `utils.sort_argument_for_model` (the
enum-for-sort-column generation collaborator, not under `src/`) builds
the default sort argument for a model; opaque. -/
def sort_argument_for_model (model : String) : PyVal :=
  PyVal.obj ("sort_argument_for_model " ++ model)

/-- The error message of `fields.py` lines 90-95. -/
def cannotCreateSortMessage (typeName : String) : String :=
  "Cannot create sort argument for " ++ typeName ++
    ". A model is required. Set the \"sort\" argument to None to disabling the creation of the sort query argument"

/-- `SQLAlchemyConnectionField.__init__` (`fields.py` lines 82-98):
returns the keyword arguments as they are passed on to the superclass
constructor, or the declaration-time error. -/
def sqla_connection_field_init (ty : GType) (kwargs : Dict PyVal) :
    Except String (Dict PyVal) :=
  if dictContains kwargs "sort" = false ∧ ty.is_connection = true then
    match ty.edge_node_model with
    | some model => Except.ok (dictSetdefault kwargs "sort" (sort_argument_for_model model))
    | Option.none => Except.error (cannotCreateSortMessage ty.name)
  else if dictContains kwargs "sort" = true ∧ dictGet kwargs "sort" = some PyVal.none then
    Except.ok (dictRemove kwargs "sort")
  else
    Except.ok kwargs

/-! ## Lemmas about the dictionary operations -/

theorem dictGet_eq_none_iff {α : Type} (d : Dict α) (k : String) :
    dictGet d k = Option.none ↔ dictContains d k = false := by
  induction d with
  | nil => simp [dictGet, dictContains]
  | cons p rest ih =>
    by_cases h : p.1 = k <;> simp [dictGet, dictContains, h, ih]

theorem dictGet_eq_some_of_mem {α : Type} {d : Dict α} {k : String} {v : α}
    (hnd : (d.map Prod.fst).Nodup) (hmem : (k, v) ∈ d) : dictGet d k = some v := by
  induction d with
  | nil => simp at hmem
  | cons p rest ih =>
    simp only [List.map_cons, List.nodup_cons] at hnd
    rcases List.mem_cons.mp hmem with h | h
    · subst h; simp [dictGet]
    · have hk : p.1 ≠ k := by
        intro he
        exact hnd.1 (he ▸ (List.mem_map.mpr ⟨(k, v), h, rfl⟩))
      simp [dictGet, hk, ih hnd.2 h]

theorem dictContains_eq_true_of_mem {α : Type} {d : Dict α} {k : String} {v : α}
    (hmem : (k, v) ∈ d) : dictContains d k = true := by
  induction d with
  | nil => simp at hmem
  | cons p rest ih =>
    rcases List.mem_cons.mp hmem with h | h
    · subst h; simp [dictContains]
    · by_cases hk : p.1 = k <;> simp [dictContains, hk, ih h]

theorem mem_of_dictContains {α : Type} {d : Dict α} {k : String}
    (h : dictContains d k = true) : ∃ v, (k, v) ∈ d := by
  induction d with
  | nil => simp [dictContains] at h
  | cons p rest ih =>
    by_cases hk : p.1 = k
    · exact ⟨p.2, by simp [← hk]⟩
    · simp [dictContains, hk] at h
      obtain ⟨v, hv⟩ := ih h
      exact ⟨v, List.mem_cons_of_mem _ hv⟩

theorem dictSet_of_not_contains {α : Type} {d : Dict α} {k : String} (v : α)
    (h : dictContains d k = false) : dictSet d k v = d ++ [(k, v)] := by
  induction d with
  | nil => simp [dictSet]
  | cons p rest ih =>
    by_cases hk : p.1 = k
    · simp [dictContains, hk] at h
    · simp [dictContains, hk] at h
      simp [dictSet, hk, ih h]

theorem dictGet_append {α : Type} (d e : Dict α) (k : String) :
    dictGet (d ++ e) k =
      match dictGet d k with
      | some v => some v
      | Option.none => dictGet e k := by
  induction d with
  | nil => simp [dictGet]
  | cons p rest ih =>
    by_cases h : p.1 = k <;> simp [dictGet, h, ih]

theorem dictGet_append_right {α : Type} {d : Dict α} (e : Dict α) (k : String)
    (h : dictContains d k = false) : dictGet (d ++ e) k = dictGet e k := by
  rw [dictGet_append, (dictGet_eq_none_iff d k).mpr h]

theorem dictContains_append {α : Type} (d e : Dict α) (k : String) :
    dictContains (d ++ e) k = (dictContains d k || dictContains e k) := by
  induction d with
  | nil => simp [dictContains]
  | cons p rest ih =>
    by_cases h : p.1 = k <;> simp [dictContains, h, ih]

theorem dictRemove_append {α : Type} (d e : Dict α) (k : String) :
    dictRemove (d ++ e) k = dictRemove d k ++ dictRemove e k := by
  induction d with
  | nil => simp [dictRemove]
  | cons p rest ih =>
    by_cases h : p.1 = k <;> simp [dictRemove, h, ih]

theorem dictRemove_of_not_contains {α : Type} {d : Dict α} {k : String}
    (h : dictContains d k = false) : dictRemove d k = d := by
  induction d with
  | nil => simp [dictRemove]
  | cons p rest ih =>
    by_cases hk : p.1 = k
    · simp [dictContains, hk] at h
    · simp [dictContains, hk] at h
      simp [dictRemove, hk, ih h]

theorem dictRemove_append_singleton {α : Type} {d : Dict α} {k : String} (v : α)
    (h : dictContains d k = false) : dictRemove (d ++ [(k, v)]) k = d := by
  rw [dictRemove_append, dictRemove_of_not_contains h]
  simp [dictRemove]

theorem dictContains_remove_self {α : Type} (d : Dict α) (k : String) :
    dictContains (dictRemove d k) k = false := by
  induction d with
  | nil => simp [dictRemove, dictContains]
  | cons p rest ih =>
    by_cases h : p.1 = k <;> simp [dictRemove, dictContains, h, ih]

theorem dictGet_set {α : Type} (d : Dict α) (k : String) (v : α) (j : String) :
    dictGet (dictSet d k v) j = if j = k then some v else dictGet d j := by
  induction d with
  | nil =>
    by_cases h : j = k
    · simp [dictSet, dictGet, h]
    · simp [dictSet, dictGet, h, Ne.symm h]
  | cons p rest ih =>
    by_cases hpk : p.1 = k
    · subst hpk
      by_cases hjk : j = p.1
      · simp [dictSet, dictGet, hjk]
      · simp [dictSet, dictGet, hjk, Ne.symm hjk]
    · by_cases hpj : p.1 = j
      · have hjk : ¬j = k := fun hh => hpk (hpj.trans hh)
        simp [dictSet, dictGet, hpk, hpj, hjk]
      · simp [dictSet, dictGet, hpk, hpj, ih]

theorem dictContains_set {α : Type} (d : Dict α) (k : String) (v : α) (j : String) :
    dictContains (dictSet d k v) j = if j = k then true else dictContains d j := by
  induction d with
  | nil =>
    by_cases h : j = k
    · simp [dictSet, dictContains, h]
    · simp [dictSet, dictContains, h, Ne.symm h]
  | cons p rest ih =>
    by_cases hpk : p.1 = k
    · subst hpk
      by_cases hjk : j = p.1
      · simp [dictSet, dictContains, hjk]
      · simp [dictSet, dictContains, hjk, Ne.symm hjk]
    · by_cases hpj : p.1 = j
      · have hjk : ¬j = k := fun hh => hpk (hpj.trans hh)
        simp [dictSet, dictContains, hpk, hpj, hjk]
      · simp [dictSet, dictContains, hpk, hpj, ih]

theorem dictUpdate_nil {α : Type} (d : Dict α) : dictUpdate d [] = d := rfl

theorem dictUpdate_cons {α : Type} (d : Dict α) (p : String × α) (e : Dict α) :
    dictUpdate d (p :: e) = dictUpdate (dictSet d p.1 p.2) e := rfl

theorem dictContains_update {α : Type} (d e : Dict α) (k : String) :
    dictContains (dictUpdate d e) k = (dictContains d k || dictContains e k) := by
  induction e generalizing d with
  | nil => simp [dictUpdate, dictContains]
  | cons p rest ih =>
    rw [dictUpdate_cons, ih, dictContains_set]
    by_cases h : k = p.1
    · simp [dictContains, h]
    · simp [dictContains, h, Ne.symm h]

theorem dictGet_update {α : Type} (d : Dict α) {e : Dict α} (k : String)
    (hnd : (e.map Prod.fst).Nodup) :
    dictGet (dictUpdate d e) k =
      match dictGet e k with
      | some v => some v
      | Option.none => dictGet d k := by
  induction e generalizing d with
  | nil => simp [dictUpdate, dictGet]
  | cons p rest ih =>
    simp only [List.map_cons, List.nodup_cons] at hnd
    rw [dictUpdate_cons, ih _ hnd.2]
    by_cases h : k = p.1
    · have hrest : dictContains rest k = false := by
        cases hc : dictContains rest k
        · rfl
        · obtain ⟨v, hv⟩ := mem_of_dictContains hc
          exact absurd (List.mem_map.mpr ⟨(k, v), hv, h ▸ rfl⟩) hnd.1
      rw [(dictGet_eq_none_iff rest k).mpr hrest, dictGet_set]
      simp [dictGet, h]
    · rw [dictGet_set]
      simp [dictGet, h, Ne.symm h]

theorem dictUpdate_of_disjoint {α : Type} {d e : Dict α}
    (hd : ∀ p ∈ e, dictContains d p.1 = false) (hnd : (e.map Prod.fst).Nodup) :
    dictUpdate d e = d ++ e := by
  induction e generalizing d with
  | nil => simp [dictUpdate]
  | cons p rest ih =>
    simp only [List.map_cons, List.nodup_cons] at hnd
    rw [dictUpdate_cons, dictSet_of_not_contains _ (hd p (List.mem_cons_self _ _))]
    rw [ih _ hnd.2]
    · simp
    · intro q hq
      rw [dictContains_append]
      rw [hd q (List.mem_cons_of_mem _ hq)]
      have hqp : q.1 ≠ p.1 := by
        intro he
        exact hnd.1 (he ▸ (List.mem_map.mpr ⟨q, hq, rfl⟩))
      simp [dictContains, Ne.symm hqp]

theorem odictOfList_eq_dictUpdate {α : Type} (l : List (String × α)) :
    odictOfList l = dictUpdate [] l := rfl

theorem odictOfList_of_nodup_keys {α : Type} {l : List (String × α)}
    (hnd : (l.map Prod.fst).Nodup) : odictOfList l = l := by
  rw [odictOfList_eq_dictUpdate, dictUpdate_of_disjoint (d := []) (fun p _ => rfl) hnd]
  simp

theorem dictContains_filter_false {α : Type} {d : Dict α} {k : String} (q : String × α → Bool)
    (h : dictContains d k = false) : dictContains (d.filter q) k = false := by
  cases hc : dictContains (d.filter q) k
  · rfl
  · obtain ⟨v, hv⟩ := mem_of_dictContains hc
    have := dictContains_eq_true_of_mem (List.mem_of_mem_filter hv)
    rw [this] at h
    exact absurd h (by simp)

theorem dictGet_filter_val {α : Type} {d : Dict α} (q : α → Bool) (k : String)
    (hnd : (d.map Prod.fst).Nodup) :
    dictGet (d.filter (fun p => q p.2)) k =
      match dictGet d k with
      | some v => if q v then some v else Option.none
      | Option.none => Option.none := by
  induction d with
  | nil => simp [dictGet]
  | cons p rest ih =>
    simp only [List.map_cons, List.nodup_cons] at hnd
    by_cases h : p.1 = k
    · have hrest : dictContains rest k = false := by
        cases hc : dictContains rest k
        · rfl
        · obtain ⟨v, hv⟩ := mem_of_dictContains hc
          exact absurd (List.mem_map.mpr ⟨(k, v), hv, h ▸ rfl⟩) hnd.1
      cases hq : q p.2 <;>
        simp [List.filter_cons, dictGet, h, hq, ih hnd.2,
          (dictGet_eq_none_iff rest k).mpr hrest]
    · cases hq : q p.2 <;> simp [List.filter_cons, dictGet, h, hq, ih hnd.2]

/-! ## C5: sort handling of the default connection query -/

/-- C5: for the connection field's default query, `sort=None` applies
no order-by clause, a single sort value is applied as a single order-by
clause, and a list of sort values is applied as successive order-by
clauses in exactly the given list order. -/
theorem connection_get_query_sort (model context : String) (s : SortEnumValue)
    (cols : List SortEnumValue) :
    (connection_get_query model context Option.none).order_by_clauses = [] ∧
    (connection_get_query model context (some (SortArg.single s))).order_by_clauses =
      [s.value] ∧
    (connection_get_query model context (some (SortArg.many cols))).order_by_clauses =
      cols.map SortEnumValue.value := by
  refine ⟨rfl, rfl, ?_⟩
  simp [connection_get_query, utils_get_query, Queryable.order_by]

/-! ## C6: length and iterable attached by `resolve_connection` -/

/-- C6: for every concrete resolved value, `resolve_connection` attaches
a total length equal to the value's `count()` result when the value is a
query and to its in-memory size otherwise (the count is the
count-operation result, no materialisation), and attaches the original
pre-slice resolved value as the iterable. -/
theorem resolve_connection_length_iterable (count : Queryable → Nat)
    (connection_type model context : String) (args : ConnArgs) (q : Queryable)
    (l : List PyVal) :
    ((resolve_connection count connection_type model context args
        (some (Resolved.query q))).length = count q ∧
      (resolve_connection count connection_type model context args
        (some (Resolved.query q))).iterable = Resolved.query q) ∧
    ((resolve_connection count connection_type model context args
        (some (Resolved.items l))).length = l.length ∧
      (resolve_connection count connection_type model context args
        (some (Resolved.items l))).iterable = Resolved.items l) :=
  ⟨⟨rfl, rfl⟩, ⟨rfl, rfl⟩⟩

/-! ## C8: `is_type_of` -/

/-- C8: `is_type_of` succeeds with `true` exactly when the root is
already an instance of the generated type or is a mapped instance of the
bound model; it raises exactly when the root is neither an instance of
the generated type nor a mapped instance at all (never silently false
for a non-mapped object); and it returns `false` exactly for a mapped
instance of a different model. -/
theorem is_type_of_cases (model : String) (root : RootObj) :
    ((is_type_of model root).isOk = false ↔
      (root.instance_of_cls = false ∧ root.mapped = false)) ∧
    (is_type_of model root = Except.ok true ↔
      (root.instance_of_cls = true ∨ (root.mapped = true ∧ model ∈ root.instance_of))) ∧
    (is_type_of model root = Except.ok false ↔
      (root.instance_of_cls = false ∧ root.mapped = true ∧ model ∉ root.instance_of)) := by
  rcases root with ⟨ic, mp, cls⟩
  by_cases h : model ∈ cls <;>
    cases ic <;> cases mp <;> simp [is_type_of, Except.isOk, Except.toBool, h]

/-! ## C3: merge of builder fields into a pre-existing field set -/

/-- C3 counterexample: with a pre-existing declared field set mapping
`x` to the declared field and a generated field set mapping `x` to the
generated field, the merge of `types.py` lines 264-267 maps `x` to the
generated field, not to the original declared one. -/
theorem meta_fields_merge_cex :
    meta_fields_merge [("x", PyVal.obj "declared")] [("x", PyVal.obj "generated")] =
      [("x", PyVal.obj "generated")] ∧
    PyVal.obj "generated" ≠ PyVal.obj "declared" :=
  ⟨rfl, by decide⟩

/-- C3 amended: on a name collision the generated (builder) field wins —
`_meta.fields.update(sqla_fields)` overwrites the pre-existing entry —
while pre-existing declared fields survive only for names the builder
did not generate. -/
theorem meta_fields_merge_generated_wins (pre sqla : Dict PyVal) (k : String) (v : PyVal)
    (hnd : (sqla.map Prod.fst).Nodup) :
    (dictGet sqla k = some v → dictGet (meta_fields_merge pre sqla) k = some v) ∧
    (dictContains sqla k = false →
      dictGet (meta_fields_merge pre sqla) k = dictGet pre k) := by
  unfold meta_fields_merge
  by_cases hp : pre.isEmpty
  · have hpre : pre = [] := List.isEmpty_iff.mp hp
    constructor
    · intro h
      simpa [hp] using h
    · intro h
      simp [hp, hpre, dictGet, (dictGet_eq_none_iff sqla k).mpr h]
  · constructor
    · intro h
      simp only [hp, if_false, Bool.false_eq_true]
      rw [dictGet_update pre k hnd, h]
    · intro h
      simp only [hp, if_false, Bool.false_eq_true]
      rw [dictGet_update pre k hnd, (dictGet_eq_none_iff sqla k).mpr h]

/-- C3 amended, witness: a concrete collision where the generated field
wins and a non-colliding declared field survives. -/
theorem meta_fields_merge_generated_wins_witness :
    dictGet (meta_fields_merge [("x", PyVal.obj "declared"), ("y", PyVal.obj "extra")]
      [("x", PyVal.obj "generated")]) "x" = some (PyVal.obj "generated") ∧
    dictGet (meta_fields_merge [("x", PyVal.obj "declared"), ("y", PyVal.obj "extra")]
      [("x", PyVal.obj "generated")]) "y" =
      dictGet [("x", PyVal.obj "declared"), ("y", PyVal.obj "extra")] "y" := by
  constructor
  · exact (meta_fields_merge_generated_wins _ _ "x" (PyVal.obj "generated")
      (by decide)).1 (by decide)
  · exact (meta_fields_merge_generated_wins _ _ "y" PyVal.none (by decide)).2 (by decide)

/-! ## C7: attribute classifier order -/

/-- C7: when the attribute names reported by the four metadata listings
are pairwise distinct, the key order of `all_model_attrs` is exactly all
plain columns, then all composites, then all hybrid descriptors, then
all relationships, each group in provider order. -/
theorem allModelAttrs_key_order (m : InspectedModel)
    (hnd : ((m.column_attrs ++ m.composites ++ hybridDescriptors m ++
      m.relationships).map Prod.fst).Nodup) :
    (allModelAttrs m).map Prod.fst =
      m.column_attrs.map Prod.fst ++ m.composites.map Prod.fst ++
        (hybridDescriptors m).map Prod.fst ++ m.relationships.map Prod.fst := by
  rw [allModelAttrs, odictOfList_of_nodup_keys hnd]
  simp

/-- A concrete model exercising all four attribute groups (the
non-hybrid descriptor `ignored` is filtered out of
`all_orm_descriptors`). -/
def c7model : InspectedModel :=
  { column_attrs := [("a", ⟨AttrKind.column, "cola"⟩)],
    composites := [("b", ⟨AttrKind.composite, "compb"⟩)],
    all_orm_descriptors :=
      [("ignored", ⟨AttrKind.other, "desc"⟩), ("h1", ⟨AttrKind.hybrid, "hyb"⟩)],
    relationships := [("r", ⟨AttrKind.relationship, "relr"⟩)] }

/-- C7 witness: the classifier order on the concrete model. -/
theorem allModelAttrs_key_order_witness :
    (allModelAttrs c7model).map Prod.fst = ["a", "b", "h1", "r"] := by
  rw [allModelAttrs_key_order c7model (by decide)]
  rfl

/-! ## C2: only_fields filtering versus overrides -/

/-- The model with attributes `a`, `b`, `c` used by C2. -/
def c2model : InspectedModel :=
  { column_attrs :=
      [("a", ⟨AttrKind.column, "cola"⟩), ("b", ⟨AttrKind.column, "colb"⟩),
        ("c", ⟨AttrKind.column, "colc"⟩)],
    composites := [], all_orm_descriptors := [], relationships := [] }

/-- A declared type with no overrides. -/
def c2objPlain : ObjType := { name := "TypeA", custom_resolvers := [], decls := [] }

/-- A declared type with one override exposed as `c`, the attribute
`only_fields=("a","b")` filters out. -/
def c2obj : ObjType :=
  { name := "TypeA", custom_resolvers := [],
    decls := [("c", ORMField.make PyVal.none PyVal.none PyVal.none PyVal.none PyVal.none
      PyVal.none 7 [])] }

/-- C2 counterexample: with `only_fields=("a","b")` on the model with
attributes `a,b,c`, an `ORMField` override exposed as `c` is neither
dropped nor an error: `construct_fields` returns the key list
`[c, a, b]`, whose key set is not `(a, b)`. -/
theorem construct_fields_only_filter_cex :
    (construct_fields c2obj c2model "reg" ["a", "b"] [] false Option.none).map
      (fun r => r.fields.map Prod.fst) = Except.ok ["c", "a", "b"] ∧
    ("c" : String) ∉ (["a", "b"] : List String) :=
  ⟨rfl, by decide⟩

/-- C2 amended: the `only_fields`/`exclude_fields` filter applies only
to automatically generated fields; override declarations bypass it (and
are validated against all model attributes, not the filtered set).
With `only_fields=("a","b")` on the model `(a,b,c)`: no overrides gives
exactly the keys `[a, b]`, while an override exposed as `c` silently
adds the field `c`, giving keys `[c, a, b]`. -/
theorem construct_fields_only_filter_amended :
    (construct_fields c2objPlain c2model "reg" ["a", "b"] [] false Option.none).map
      (fun r => r.fields.map Prod.fst) = Except.ok ["a", "b"] ∧
    (construct_fields c2obj c2model "reg" ["a", "b"] [] false Option.none).map
      (fun r => r.fields.map Prod.fst) = Except.ok ["c", "a", "b"] :=
  ⟨rfl, rfl⟩

/-! ## C9: None-valued common options of `ORMField` -/

theorem mem_keys_of_dictContains {α : Type} {d : Dict α} {k : String}
    (h : dictContains d k = true) : k ∈ d.map Prod.fst := by
  obtain ⟨v, hv⟩ := mem_of_dictContains h
  exact List.mem_map.mpr ⟨(k, v), hv, rfl⟩

theorem dictUpdate_filterNone_contains_of_none {fk six : Dict PyVal} {k : String}
    (hfk : dictContains fk k = false) (hsix : (six.map Prod.fst).Nodup)
    (hget : dictGet six k = some PyVal.none) :
    dictContains (dictUpdate fk (six.filter (fun p => decide (p.2 ≠ PyVal.none)))) k =
      false := by
  rw [dictContains_update, hfk]
  cases hc : dictContains (six.filter (fun p => decide (p.2 ≠ PyVal.none))) k
  · rfl
  · exfalso
    obtain ⟨v, hv⟩ := mem_of_dictContains hc
    have hmem6 : (k, v) ∈ six := List.mem_of_mem_filter hv
    have hvv : dictGet six k = some v := dictGet_eq_some_of_mem hsix hmem6
    rw [hget] at hvv
    have hveq : v = PyVal.none := by
      injection hvv with h2
      exact h2.symm
    have hq := List.of_mem_filter hv
    rw [hveq] at hq
    simp at hq

theorem dictUpdate_filterNone_get_of_some {fk six : Dict PyVal} {k : String} {val : PyVal}
    (hsix : (six.map Prod.fst).Nodup) (hmem : (k, val) ∈ six) (hval : val ≠ PyVal.none) :
    dictGet (dictUpdate fk (six.filter (fun p => decide (p.2 ≠ PyVal.none)))) k =
      some val := by
  have hfnd : ((six.filter (fun p => decide (p.2 ≠ PyVal.none))).map Prod.fst).Nodup :=
    (List.Sublist.map Prod.fst (List.filter_sublist six)).nodup hsix
  rw [dictGet_update fk k hfnd]
  have hmf : (k, val) ∈ six.filter (fun p => decide (p.2 ≠ PyVal.none)) :=
    List.mem_filter.mpr ⟨hmem, by simp [hval]⟩
  rw [dictGet_eq_some_of_mem hfnd hmf]

theorem dictGet_update_of_not_contains {α : Type} (d : Dict α) {e : Dict α} {k : String}
    (h : dictContains e k = false) : dictGet (dictUpdate d e) k = dictGet d k := by
  induction e generalizing d with
  | nil => simp [dictUpdate]
  | cons p rest ih =>
    by_cases hk : p.1 = k
    · simp [dictContains, hk] at h
    · simp only [dictContains, hk, if_false] at h
      rw [dictUpdate_cons, ih _ h, dictGet_set]
      simp [Ne.symm hk]

theorem dictUpdate_filterNone_get_passthrough {fk six : Dict PyVal} {p : String × PyVal}
    (hp : p ∈ fk) (hfknd : (fk.map Prod.fst).Nodup)
    (hdisj : dictContains six p.1 = false) :
    dictGet (dictUpdate fk (six.filter (fun q => decide (q.2 ≠ PyVal.none)))) p.1 =
      some p.2 := by
  have hfc : dictContains (six.filter (fun q => decide (q.2 ≠ PyVal.none))) p.1 = false :=
    dictContains_filter_false _ hdisj
  rw [dictGet_update_of_not_contains fk hfc]
  exact dictGet_eq_some_of_mem hfknd hp

/-- C9: constructing an `ORMField` drops every common option whose value
is `None` (it is absent from `kwargs`, not stored as `None`), keeps
every common option with a non-`None` value (including `False`), and
keeps arbitrary passthrough keyword options unconditionally. -/
theorem ORMField_make_common_options
    (model_attr type required description deprecation_reason batching : PyVal)
    (creation_counter : Nat) (field_kwargs : Dict PyVal)
    (hres : ∀ k ∈ ["model_attr", "type", "required", "description", "deprecation_reason",
      "batching"], dictContains field_kwargs k = false)
    (hnd : (field_kwargs.map Prod.fst).Nodup) :
    (∀ kv ∈ [("model_attr", model_attr), ("type", type), ("required", required),
        ("description", description), ("deprecation_reason", deprecation_reason),
        ("batching", batching)],
      (kv.2 = PyVal.none →
        dictContains (ORMField.make model_attr type required description deprecation_reason
          batching creation_counter field_kwargs).kwargs kv.1 = false) ∧
      (kv.2 ≠ PyVal.none →
        dictGet (ORMField.make model_attr type required description deprecation_reason
          batching creation_counter field_kwargs).kwargs kv.1 = some kv.2)) ∧
    (∀ p ∈ field_kwargs,
      dictGet (ORMField.make model_attr type required description deprecation_reason
        batching creation_counter field_kwargs).kwargs p.1 = some p.2) := by
  have hsixnd : (([("model_attr", model_attr), ("type", type), ("required", required),
      ("description", description), ("deprecation_reason", deprecation_reason),
      ("batching", batching)]).map Prod.fst).Nodup := by simp
  constructor
  · intro kv hkv
    have hone : dictGet [("model_attr", model_attr), ("type", type), ("required", required),
        ("description", description), ("deprecation_reason", deprecation_reason),
        ("batching", batching)] kv.1 = some kv.2 := dictGet_eq_some_of_mem hsixnd hkv
    have hnames : kv.1 ∈ ["model_attr", "type", "required", "description",
        "deprecation_reason", "batching"] := by
      have hm : kv.1 ∈ ([("model_attr", model_attr), ("type", type), ("required", required),
          ("description", description), ("deprecation_reason", deprecation_reason),
          ("batching", batching)]).map Prod.fst := List.mem_map.mpr ⟨kv, hkv, rfl⟩
      simpa using hm
    constructor
    · intro h0
      simp only [ORMField.make]
      exact dictUpdate_filterNone_contains_of_none (hres _ hnames) hsixnd (h0 ▸ hone)
    · intro h0
      simp only [ORMField.make]
      exact dictUpdate_filterNone_get_of_some hsixnd hkv h0
  · intro p hp
    simp only [ORMField.make]
    apply dictUpdate_filterNone_get_passthrough hp hnd
    cases hc : dictContains [("model_attr", model_attr), ("type", type), ("required", required),
        ("description", description), ("deprecation_reason", deprecation_reason),
        ("batching", batching)] p.1
    · rfl
    · exfalso
      have hk := mem_keys_of_dictContains hc
      have hcf : dictContains field_kwargs p.1 = false := hres p.1 (by simpa using hk)
      rw [dictContains_eq_true_of_mem hp] at hcf
      exact absurd hcf (by simp)

/-- C9 witness: a `None`-valued `type` option is absent, a `False`
`required` option is kept, and a passthrough option is kept. -/
theorem ORMField_make_common_options_witness :
    dictContains (ORMField.make (PyVal.str "attr") PyVal.none (PyVal.bool false) PyVal.none
      PyVal.none PyVal.none 3 [("extra", PyVal.int 7)]).kwargs "type" = false ∧
    dictGet (ORMField.make (PyVal.str "attr") PyVal.none (PyVal.bool false) PyVal.none
      PyVal.none PyVal.none 3 [("extra", PyVal.int 7)]).kwargs "required" =
      some (PyVal.bool false) ∧
    dictGet (ORMField.make (PyVal.str "attr") PyVal.none (PyVal.bool false) PyVal.none
      PyVal.none PyVal.none 3 [("extra", PyVal.int 7)]).kwargs "extra" =
      some (PyVal.int 7) := by
  have h := ORMField_make_common_options (PyVal.str "attr") PyVal.none (PyVal.bool false)
    PyVal.none PyVal.none PyVal.none 3 [("extra", PyVal.int 7)] (by decide) (by decide)
  refine ⟨?_, ?_, ?_⟩
  · exact (h.1 ("type", PyVal.none) (by simp)).1 rfl
  · exact (h.1 ("required", PyVal.bool false) (by simp)).2 (by decide)
  · exact h.2 ("extra", PyVal.int 7) (by simp)

/-! ## C10: the two "no sort" spellings of `SQLAlchemyConnectionField` -/

/-- C10: `sort=None` removes the sort keyword entirely; an omitted
`sort` on a connection type auto-generates the default sort argument
from the connection's model; and an omitted `sort` on a connection type
whose model cannot be derived raises the declaration-time error telling
the caller to set `sort` to `None`. -/
theorem sqla_connection_field_init_cases (ty : GType) (kwargs : Dict PyVal)
    (model : String) :
    (dictGet kwargs "sort" = some PyVal.none →
      sqla_connection_field_init ty kwargs = Except.ok (dictRemove kwargs "sort") ∧
      dictContains (dictRemove kwargs "sort") "sort" = false) ∧
    (dictContains kwargs "sort" = false → ty.is_connection = true →
      ty.edge_node_model = some model →
      sqla_connection_field_init ty kwargs =
        Except.ok (kwargs ++ [("sort", sort_argument_for_model model)])) ∧
    (dictContains kwargs "sort" = false → ty.is_connection = true →
      ty.edge_node_model = Option.none →
      sqla_connection_field_init ty kwargs =
        Except.error (cannotCreateSortMessage ty.name)) := by
  refine ⟨?_, ?_, ?_⟩
  · intro hget
    have hcont : dictContains kwargs "sort" = true := by
      cases hc : dictContains kwargs "sort"
      · rw [(dictGet_eq_none_iff kwargs "sort").mpr hc] at hget
        exact absurd hget (by simp)
      · rfl
    refine ⟨?_, dictContains_remove_self kwargs "sort"⟩
    unfold sqla_connection_field_init
    rw [if_neg (by simp [hcont]), if_pos ⟨hcont, hget⟩]
  · intro h1 h2 h3
    unfold sqla_connection_field_init
    rw [if_pos ⟨h1, h2⟩, h3]
    simp [dictSetdefault, h1]
  · intro h1 h2 h3
    unfold sqla_connection_field_init
    rw [if_pos ⟨h1, h2⟩, h3]

/-- C10 witness: the three concrete branches. -/
theorem sqla_connection_field_init_cases_witness :
    sqla_connection_field_init ⟨"YField", false, Option.none⟩
        [("sort", PyVal.none), ("foo", PyVal.int 1)] =
      Except.ok (dictRemove [("sort", PyVal.none), ("foo", PyVal.int 1)] "sort") ∧
    sqla_connection_field_init ⟨"XConnection", true, some "ModelX"⟩ [] =
      Except.ok ([] ++ [("sort", sort_argument_for_model "ModelX")]) ∧
    sqla_connection_field_init ⟨"BadConnection", true, Option.none⟩ [] =
      Except.error (cannotCreateSortMessage "BadConnection") := by
  refine ⟨?_, ?_, ?_⟩
  · exact ((sqla_connection_field_init_cases ⟨"YField", false, Option.none⟩
      [("sort", PyVal.none), ("foo", PyVal.int 1)] "unused").1 (by decide)).1
  · exact (sqla_connection_field_init_cases ⟨"XConnection", true, some "ModelX"⟩ []
      "ModelX").2.1 (by decide) rfl rfl
  · exact (sqla_connection_field_init_cases ⟨"BadConnection", true, Option.none⟩ []
      "unused").2.2 (by decide) rfl rfl

/-! ## C4: override precedence across an inheritance chain -/

/-- A model with the single column attribute `x` for the precedence
scenario. -/
def c4modelX : InspectedModel :=
  { column_attrs := [("x", ⟨AttrKind.column, "colx"⟩)], composites := [],
    all_orm_descriptors := [], relationships := [] }

/-- A base-class override of `x` with declaration counter `5`. -/
def c4base : ORMField :=
  ORMField.make PyVal.none PyVal.none PyVal.none (PyVal.str "base") PyVal.none PyVal.none 5 []

/-- A derived-class override of `x` with the explicitly smaller
declaration counter `3` (`ORMField` exposes `_creation_counter`). -/
def c4derived : ORMField :=
  ORMField.make PyVal.none PyVal.none PyVal.none (PyVal.str "derived") PyVal.none PyVal.none
    3 []

/-- The declared type: MRO walk collects the base override first, the
derived override second, both under the exposed name `x`. -/
def c4obj : ObjType :=
  { name := "T", custom_resolvers := [], decls := [("x", c4base), ("x", c4derived)] }

/-- C4 counterexample: when the derived override carries a smaller
creation counter (3) than the base override (5), the merged field for
`x` is built from the base declaration's options (`description =
"base"`), not the derived one's — the most-derived declaration does not
win regardless of the counters. -/
theorem override_precedence_cex :
    (construct_fields c4obj c4modelX "reg" [] [] false Option.none).map CFResult.fields =
      Except.ok [("x", GField.fromColumn ⟨AttrKind.column, "colx"⟩ "reg"
        (Resolver.attr "T" "x") [("description", PyVal.str "base")])] ∧
    dictGet c4derived.kwargs "description" = some (PyVal.str "derived") :=
  ⟨rfl, rfl⟩

/-- C4 amended: among overrides collected base-to-derived for the same
exposed name, the one with the largest creation counter wins, the
stable sort breaking counter ties in favour of the most-derived; so the
most-derived declaration's options win exactly when its counter is at
least the base's (the normal declaration order), and the base
declaration's options never appear in the output in that case. -/
theorem override_precedence_amended (cb cd : Nat) (kb kd : Dict PyVal) (hc : cb ≤ cd)
    (hb : dictContains kb "model_attr" = false)
    (hd : dictContains kd "model_attr" = false) :
    construct_fields
      { name := "T", custom_resolvers := [],
        decls := [("x", ⟨cb, kb⟩), ("x", ⟨cd, kd⟩)] }
      c4modelX "reg" [] [] false Option.none =
    Except.ok
      { fields := [("x", GField.fromColumn ⟨AttrKind.column, "colx"⟩ "reg"
          (Resolver.attr "T" "x") kd)],
        decls2 := [("x", ⟨cb, kb ++ [("model_attr", PyVal.str "x")]⟩),
          ("x", ⟨cd, kd ++ []⟩)] } := by
  have hlt : declLT (0, "x", (⟨cb, kb⟩ : ORMField)) (1, "x", (⟨cd, kd⟩ : ORMField)) := by
    rcases Nat.lt_or_ge cb cd with h | h
    · exact Or.inl h
    · exact Or.inr ⟨Nat.le_antisymm hc h, by omega⟩
  have hams : allModelAttrs c4modelX = [("x", ⟨AttrKind.column, "colx"⟩)] := rfl
  have h1 : sortByCounter (withIndices [("x", (⟨cb, kb⟩ : ORMField)), ("x", ⟨cd, kd⟩)] 0) =
      [(0, "x", (⟨cb, kb⟩ : ORMField)), (1, "x", ⟨cd, kd⟩)] := by
    simp [withIndices, sortByCounter, insertDecl, hlt]
  have hgetb := (dictGet_eq_none_iff kb "model_attr").mpr hb
  have hgetd := (dictGet_eq_none_iff kd "model_attr").mpr hd
  have h2 : setModelAttrsList [("x", ⟨AttrKind.column, "colx"⟩)] "T"
      [(0, "x", (⟨cb, kb⟩ : ORMField)), (1, "x", ⟨cd, kd⟩)] =
      Except.ok [(0, "x", (⟨cb, kb ++ [("model_attr", PyVal.str "x")]⟩ : ORMField)),
        (1, "x", ⟨cd, kd ++ [("model_attr", PyVal.str "x")]⟩)] := by
    simp [setModelAttrsList, setModelAttr1, resolveModelAttr, hgetb, hgetd, dictContains,
      dictSet_of_not_contains _ hb, dictSet_of_not_contains _ hd]
  have hpop : dictGet (kd ++ [("model_attr", PyVal.str "x")]) "model_attr" =
      some (PyVal.str "x") := by
    rw [dictGet_append_right _ _ hd]
    rfl
  have hrem : dictRemove (kd ++ [("model_attr", PyVal.str "x")]) "model_attr" = kd :=
    dictRemove_append_singleton _ hd
  have h3 : buildFieldsList [("x", ⟨AttrKind.column, "colx"⟩)]
      { name := "T", custom_resolvers := [],
        decls := [("x", ⟨cb, kb⟩), ("x", ⟨cd, kd⟩)] } "reg" false Option.none
      [("x", FieldRef.decl 1)]
      [("x", ⟨cb, kb ++ [("model_attr", PyVal.str "x")]⟩),
        ("x", ⟨cd, kd ++ [("model_attr", PyVal.str "x")]⟩)] =
      Except.ok ([("x", GField.fromColumn ⟨AttrKind.column, "colx"⟩ "reg"
          (Resolver.attr "T" "x") kd)],
        [("x", ⟨cb, kb ++ [("model_attr", PyVal.str "x")]⟩), ("x", ⟨cd, kd ++ []⟩)]) := by
    simp [buildFieldsList, buildOne, hpop, hrem, dictGet, dictContains]
  simp only [construct_fields, h1, h2, hams]
  simp [ormFieldRefs, applyUpdates, autoOrmFieldNames, odictOfList, dictSet, dictContains,
    h3]

/-- C4 amended, witness: with the normal declaration order (base
counter 3, derived counter 5) the derived override's options win. -/
theorem override_precedence_amended_witness :
    construct_fields
      { name := "T", custom_resolvers := [],
        decls := [("x", ⟨3, [("description", PyVal.str "base")]⟩),
          ("x", ⟨5, [("description", PyVal.str "derived")]⟩)] }
      c4modelX "reg" [] [] false Option.none =
    Except.ok
      { fields := [("x", GField.fromColumn ⟨AttrKind.column, "colx"⟩ "reg"
          (Resolver.attr "T" "x") [("description", PyVal.str "derived")])],
        decls2 := [("x", ⟨3, [("description", PyVal.str "base"),
            ("model_attr", PyVal.str "x")]⟩),
          ("x", ⟨5, [("description", PyVal.str "derived")]⟩)] } :=
  override_precedence_amended 3 5 [("description", PyVal.str "base")]
    [("description", PyVal.str "derived")] (by decide) (by decide) (by decide)

/-! ## C1: idempotence of `construct_fields` -/

/-- A model with columns `a` and `n` for the idempotence
counterexample. -/
def c1model : InspectedModel :=
  { column_attrs := [("a", ⟨AttrKind.column, "cola"⟩), ("n", ⟨AttrKind.column, "coln"⟩)],
    composites := [], all_orm_descriptors := [], relationships := [] }

/-- A declared type with one override exposed as `n` targeting
`model_attr="a"`. -/
def c1obj : ObjType :=
  { name := "T", custom_resolvers := [],
    decls := [("n", ORMField.make (PyVal.str "a") PyVal.none PyVal.none PyVal.none
      PyVal.none PyVal.none 1 [])] }

/-- The first call's result: field `n` resolves through attribute `a`;
the call has popped `model_attr` out of the override's kwargs. -/
def c1result1 : CFResult :=
  { fields :=
      [("n", GField.fromColumn ⟨AttrKind.column, "cola"⟩ "reg" (Resolver.attr "T" "a") []),
        ("a", GField.fromColumn ⟨AttrKind.column, "cola"⟩ "reg" (Resolver.attr "T" "a") [])],
    decls2 := [("n", ⟨1, []⟩)] }

/-- The second call's result: the override's `model_attr` is gone, so
field `n` now resolves through attribute `n` — a different per-key
configuration. -/
def c1result2 : CFResult :=
  { fields :=
      [("n", GField.fromColumn ⟨AttrKind.column, "coln"⟩ "reg" (Resolver.attr "T" "n") []),
        ("a", GField.fromColumn ⟨AttrKind.column, "cola"⟩ "reg" (Resolver.attr "T" "a") [])],
    decls2 := [("n", ⟨1, []⟩)] }

/-- C1 counterexample: `construct_fields` pops `model_attr` out of the
declared override objects, so calling it twice with the identical
inputs (the same, now mutated, `ORMField` objects) yields field
mappings with equal key sets and key order but different per-key field
configuration. -/
theorem construct_fields_not_idempotent_cex :
    construct_fields c1obj c1model "reg" [] [] false Option.none = Except.ok c1result1 ∧
    construct_fields { c1obj with decls := c1result1.decls2 } c1model "reg" [] [] false
      Option.none = Except.ok c1result2 ∧
    c1result1.fields.map Prod.fst = c1result2.fields.map Prod.fst ∧
    c1result1.fields ≠ c1result2.fields :=
  ⟨rfl, rfl, rfl, by decide⟩

/-- The state of a declared override after the `types.py` line 144
assignment: its kwargs with the resolved `model_attr` appended. -/
def markedORMField (n : String) (f : ORMField) : ORMField :=
  { f with kwargs := f.kwargs ++ [("model_attr", PyVal.str n)] }

theorem setModelAttr1_clean {ams : Dict ModelAttr} {tn n : String} {f g : ORMField}
    (hm : dictContains f.kwargs "model_attr" = false)
    (hok : setModelAttr1 ams tn n f = Except.ok g) :
    g = markedORMField n f := by
  have hres : resolveModelAttr n f.kwargs = some n := by
    unfold resolveModelAttr
    rw [(dictGet_eq_none_iff f.kwargs "model_attr").mpr hm]
  unfold setModelAttr1 at hok
  simp only [hres] at hok
  cases hc : dictContains ams n
  · simp only [hc] at hok
    simp at hok
  · simp only [hc] at hok
    simp at hok
    rw [← hok, markedORMField, dictSet_of_not_contains _ hm]

theorem setModelAttrsList_clean {ams : Dict ModelAttr} {tn : String} :
    ∀ {l l2 : List (Nat × String × ORMField)},
    (∀ t ∈ l, dictContains t.2.2.kwargs "model_attr" = false) →
    setModelAttrsList ams tn l = Except.ok l2 →
    l2 = l.map (fun t => (t.1, t.2.1, markedORMField t.2.1 t.2.2)) := by
  intro l
  induction l with
  | nil =>
    intro l2 _ hok
    simp [setModelAttrsList] at hok
    simp [hok]
  | cons t rest ih =>
    intro l2 hcl hok
    obtain ⟨i, n, f⟩ := t
    simp only [setModelAttrsList] at hok
    cases h1 : setModelAttr1 ams tn n f with
    | error e =>
      rw [h1] at hok
      simp at hok
    | ok f2 =>
      rw [h1] at hok
      cases h2 : setModelAttrsList ams tn rest with
      | error e =>
        rw [h2] at hok
        simp at hok
      | ok rest2 =>
        rw [h2] at hok
        simp only [Except.ok.injEq] at hok
        have hf2 : f2 = markedORMField n f :=
          setModelAttr1_clean (hcl (i, n, f) (List.mem_cons_self _ _)) h1
        have hrest2 := ih (fun t ht => hcl t (List.mem_cons_of_mem _ ht)) h2
        rw [← hok, hf2, hrest2]
        simp

theorem buildOne_marked {ams : Dict ModelAttr} {obj : ObjType} {registry : String}
    {batching : Bool} {cff : Option String} {n : String} {f : ORMField} {gf : GField}
    {f2 : ORMField}
    (hm : dictContains f.kwargs "model_attr" = false)
    (hb : dictContains f.kwargs "batching" = false)
    (hok : buildOne ams obj registry batching cff n (markedORMField n f) =
      Except.ok (gf, f2)) :
    f2 = f := by
  have hget : dictGet (markedORMField n f).kwargs "model_attr" = some (PyVal.str n) := by
    simp only [markedORMField]
    rw [dictGet_append_right _ _ hm]
    rfl
  have hrem : dictRemove (markedORMField n f).kwargs "model_attr" = f.kwargs := by
    simp only [markedORMField]
    exact dictRemove_append_singleton _ hm
  simp only [buildOne, hget, hrem] at hok
  cases hattr : dictGet ams n with
  | none =>
    simp only [hattr] at hok
    simp at hok
  | some attr =>
    simp only [hattr] at hok
    cases hk : attr.kind
    case column =>
      simp only [hk] at hok
      simp at hok
      exact hok.2.symm
    case relationship =>
      simp only [hk] at hok
      rw [(dictGet_eq_none_iff f.kwargs "batching").mpr hb,
        dictRemove_of_not_contains hb] at hok
      simp at hok
      exact hok.2.symm
    case composite =>
      simp only [hk] at hok
      by_cases hemp : f.kwargs = []
      · simp [hemp] at hok
        rw [← hok.2, ← hemp]
        rfl
      · simp [hemp] at hok
    case hybrid =>
      simp only [hk] at hok
      simp at hok
      exact hok.2.symm
    case other =>
      simp only [hk] at hok
      simp at hok

theorem applyUpdates_get_of_not_mem {j : Nat} :
    ∀ {ups : List (Nat × String × ORMField)} {store : List (String × ORMField)},
    (∀ n g, (j, n, g) ∉ ups) →
    (applyUpdates store ups).get? j = store.get? j := by
  intro ups
  induction ups with
  | nil =>
    intro store _
    rfl
  | cons u rest ih =>
    intro store h
    obtain ⟨i, n, g⟩ := u
    have hij : i ≠ j := by
      intro he
      exact h n g (by simp [he])
    simp only [applyUpdates]
    rw [ih (fun n2 g2 hm => h n2 g2 (List.mem_cons_of_mem _ hm)),
      List.get?_set_ne _ _ hij]

theorem applyUpdates_get_of_mem :
    ∀ {ups : List (Nat × String × ORMField)} {store : List (String × ORMField)}
      {i : Nat} {n : String} {g : ORMField},
    (ups.map (fun t => t.1)).Nodup → (i, n, g) ∈ ups → i < store.length →
    (applyUpdates store ups).get? i = some (n, g) := by
  intro ups
  induction ups with
  | nil =>
    intro store i n g _ hmem _
    simp at hmem
  | cons u rest ih =>
    intro store i n g hnd hmem hi
    obtain ⟨j, m, h0⟩ := u
    simp only [List.map_cons, List.nodup_cons] at hnd
    simp only [applyUpdates]
    rcases List.mem_cons.mp hmem with he | hmem2
    · injection he with h1 h23
      injection h23 with h2 h3
      subst h1
      subst h2
      subst h3
      rw [applyUpdates_get_of_not_mem (fun n2 g2 hm2 =>
        hnd.1 (List.mem_map.mpr ⟨(i, n2, g2), hm2, rfl⟩))]
      exact List.get?_set_eq_of_lt (n, g) hi
    · exact ih hnd.2 hmem2 (by rw [List.length_set]; exact hi)

theorem withIndices_get? :
    ∀ (l : List (String × ORMField)) (s : Nat) {j : Nat} {n : String} {f : ORMField},
    (j, n, f) ∈ withIndices l s → s ≤ j ∧ l.get? (j - s) = some (n, f) := by
  intro l
  induction l with
  | nil =>
    intro s j n f h
    simp [withIndices] at h
  | cons p rest ih =>
    intro s j n f h
    obtain ⟨pn, pf⟩ := p
    simp only [withIndices] at h
    rcases List.mem_cons.mp h with he | hm
    · injection he with h1 h23
      injection h23 with h2 h3
      subst h1
      subst h2
      subst h3
      refine ⟨Nat.le_refl _, ?_⟩
      simp [List.get?]
    · obtain ⟨hle, hget⟩ := ih (s + 1) hm
      refine ⟨by omega, ?_⟩
      have hj : j - s = (j - (s + 1)) + 1 := by omega
      rw [hj]
      simpa [List.get?] using hget

theorem withIndices_map_name (l : List (String × ORMField)) :
    ∀ s, (withIndices l s).map (fun t => t.2.1) = l.map Prod.fst := by
  induction l with
  | nil =>
    intro s
    rfl
  | cons p rest ih =>
    intro s
    simp [withIndices, ih]

theorem withIndices_idx_ge (l : List (String × ORMField)) :
    ∀ s, ∀ j ∈ (withIndices l s).map (fun t => t.1), s ≤ j := by
  induction l with
  | nil =>
    intro s j h
    simp [withIndices] at h
  | cons p rest ih =>
    intro s j h
    simp only [withIndices, List.map_cons, List.mem_cons] at h
    rcases h with rfl | h
    · exact Nat.le_refl _
    · exact Nat.le_of_succ_le (ih (s + 1) j h)

theorem withIndices_idx_nodup (l : List (String × ORMField)) :
    ∀ s, ((withIndices l s).map (fun t => t.1)).Nodup := by
  induction l with
  | nil =>
    intro s
    simp [withIndices]
  | cons p rest ih =>
    intro s
    simp only [withIndices, List.map_cons, List.nodup_cons]
    refine ⟨fun hmem => ?_, ih (s + 1)⟩
    have := withIndices_idx_ge rest (s + 1) s hmem
    omega

theorem insertDecl_perm (x : Nat × String × ORMField) (l : List (Nat × String × ORMField)) :
    (insertDecl x l).Perm (x :: l) := by
  induction l with
  | nil => simp [insertDecl]
  | cons y ys ih =>
    simp only [insertDecl]
    by_cases h : declLT x y
    · rw [if_pos h]
    · rw [if_neg h]
      exact (List.Perm.cons y ih).trans (List.Perm.swap x y ys)

theorem sortByCounter_perm (l : List (Nat × String × ORMField)) :
    (sortByCounter l).Perm l := by
  induction l with
  | nil => simp [sortByCounter]
  | cons x xs ih =>
    have h1 : sortByCounter (x :: xs) = insertDecl x (sortByCounter xs) := rfl
    rw [h1]
    exact (insertDecl_perm x (sortByCounter xs)).trans (List.Perm.cons x ih)

theorem ormFieldRefs_foldl_split (names : List String) :
    ∀ acc : List (String × FieldRef),
    ∃ tail, names.foldl (fun acc n =>
        if dictContains acc n then acc else acc ++ [(n, FieldRef.auto (autoORMField n))])
        acc = acc ++ tail ∧
      ∀ p ∈ tail, ∃ f, p.2 = FieldRef.auto f := by
  induction names with
  | nil =>
    intro acc
    exact ⟨[], by simp, by simp⟩
  | cons n rest ih =>
    intro acc
    simp only [List.foldl_cons]
    cases h : dictContains acc n
    · simp only [h, Bool.false_eq_true, if_false]
      obtain ⟨tail, h1, hall⟩ := ih (acc ++ [(n, FieldRef.auto (autoORMField n))])
      refine ⟨(n, FieldRef.auto (autoORMField n)) :: tail, ?_, ?_⟩
      · rw [h1]
        simp
      · intro p hp
        rcases List.mem_cons.mp hp with rfl | hp2
        · exact ⟨_, rfl⟩
        · exact hall p hp2
    · simp only [h, if_true]
      exact ih acc

theorem ormFieldRefs_split (sorted2 : List (Nat × String × ORMField))
    (autoNames : List String) (hnd : (sorted2.map (fun t => t.2.1)).Nodup) :
    ∃ tail, ormFieldRefs sorted2 autoNames =
      sorted2.map (fun t => (t.2.1, FieldRef.decl t.1)) ++ tail ∧
      ∀ p ∈ tail, ∃ f, p.2 = FieldRef.auto f := by
  unfold ormFieldRefs
  rw [odictOfList_of_nodup_keys (by simpa [List.map_map, Function.comp] using hnd)]
  exact ormFieldRefs_foldl_split autoNames _

theorem buildFieldsList_append (ams : Dict ModelAttr) (obj : ObjType) (registry : String)
    (batching : Bool) (cff : Option String) :
    ∀ (xs ys : List (String × FieldRef)) (store : List (String × ORMField)),
    buildFieldsList ams obj registry batching cff (xs ++ ys) store =
      match buildFieldsList ams obj registry batching cff xs store with
      | Except.error e => Except.error e
      | Except.ok (fs, st1) =>
        match buildFieldsList ams obj registry batching cff ys st1 with
        | Except.error e => Except.error e
        | Except.ok (fs2, st2) => Except.ok (fs ++ fs2, st2) := by
  intro xs
  induction xs with
  | nil =>
    intro ys store
    simp only [List.nil_append, buildFieldsList]
    cases h : buildFieldsList ams obj registry batching cff ys store with
    | error e => rfl
    | ok pr =>
      obtain ⟨fs2, st2⟩ := pr
      rfl
  | cons q rest ih =>
    intro ys store
    obtain ⟨nm, ref⟩ := q
    cases ref with
    | decl i =>
      simp only [List.cons_append, buildFieldsList, List.append_eq]
      cases hs : store.get? i with
      | none => simp
      | some pr =>
        obtain ⟨n0, f⟩ := pr
        cases h1 : buildOne ams obj registry batching cff nm f with
        | error e => simp [h1]
        | ok pr1 =>
          obtain ⟨gf, f2⟩ := pr1
          simp only [h1]
          rw [ih ys (store.set i (n0, f2))]
          cases h2 : buildFieldsList ams obj registry batching cff rest
              (store.set i (n0, f2)) with
          | error e => simp [h2]
          | ok pr2 =>
            obtain ⟨fs, st1⟩ := pr2
            simp only [h2]
            cases h3 : buildFieldsList ams obj registry batching cff ys st1 with
            | error e => simp [h3]
            | ok pr3 =>
              obtain ⟨fs2, st2⟩ := pr3
              simp [h3]
    | auto f =>
      simp only [List.cons_append, buildFieldsList, List.append_eq]
      cases h1 : buildOne ams obj registry batching cff nm f with
      | error e => simp [h1]
      | ok pr1 =>
        obtain ⟨gf, f2⟩ := pr1
        simp only [h1]
        rw [ih ys store]
        cases h2 : buildFieldsList ams obj registry batching cff rest store with
        | error e => simp [h2]
        | ok pr2 =>
          obtain ⟨fs, st1⟩ := pr2
          simp only [h2]
          cases h3 : buildFieldsList ams obj registry batching cff ys st1 with
          | error e => simp [h3]
          | ok pr3 =>
            obtain ⟨fs2, st2⟩ := pr3
            simp [h3]

theorem buildFieldsList_autos_store (ams : Dict ModelAttr) (obj : ObjType)
    (registry : String) (batching : Bool) (cff : Option String) :
    ∀ {ys : List (String × FieldRef)} {store : List (String × ORMField)}
      {fs : List (String × GField)} {st2 : List (String × ORMField)},
    (∀ p ∈ ys, ∃ f, p.2 = FieldRef.auto f) →
    buildFieldsList ams obj registry batching cff ys store = Except.ok (fs, st2) →
    st2 = store := by
  intro ys
  induction ys with
  | nil =>
    intro store fs st2 _ hok
    simp [buildFieldsList] at hok
    exact hok.2.symm
  | cons q rest ih =>
    intro store fs st2 hall hok
    obtain ⟨nm, ref⟩ := q
    obtain ⟨f, hf⟩ := hall (nm, ref) (List.mem_cons_self _ _)
    have hf2 : ref = FieldRef.auto f := hf
    subst hf2
    simp only [buildFieldsList] at hok
    cases h1 : buildOne ams obj registry batching cff nm f with
    | error e => simp [h1] at hok
    | ok pr1 =>
      obtain ⟨gf, f2⟩ := pr1
      simp only [h1] at hok
      cases h2 : buildFieldsList ams obj registry batching cff rest store with
      | error e => simp [h2] at hok
      | ok pr2 =>
        obtain ⟨fs3, st3⟩ := pr2
        simp only [h2] at hok
        simp at hok
        rw [← hok.2]
        exact ih (fun p hp => hall p (List.mem_cons_of_mem _ hp)) h2

theorem buildFieldsList_customs_restore (ams : Dict ModelAttr) (obj : ObjType)
    (registry : String) (batching : Bool) (cff : Option String)
    (orig : List (String × ORMField)) :
    ∀ {rem : List (Nat × String × ORMField)} {store : List (String × ORMField)}
      {fs : List (String × GField)} {st2 : List (String × ORMField)},
    (rem.map (fun t => t.1)).Nodup →
    (∀ t ∈ rem, ∃ f, orig.get? t.1 = some (t.2.1, f) ∧ t.2.2 = markedORMField t.2.1 f ∧
      dictContains f.kwargs "model_attr" = false ∧
      dictContains f.kwargs "batching" = false) →
    (∀ t ∈ rem, store.get? t.1 = some (t.2.1, t.2.2)) →
    (∀ j, (∀ n g, (j, n, g) ∉ rem) → store.get? j = orig.get? j) →
    buildFieldsList ams obj registry batching cff
      (rem.map (fun t => (t.2.1, FieldRef.decl t.1))) store = Except.ok (fs, st2) →
    ∀ j, st2.get? j = orig.get? j := by
  intro rem
  induction rem with
  | nil =>
    intro store fs st2 _ _ _ hinv2 hok j
    simp [buildFieldsList] at hok
    rw [← hok.2]
    exact hinv2 j (by simp)
  | cons t rest ih =>
    intro store fs st2 hnd hcomp hinv1 hinv2 hok j
    obtain ⟨i, n, g⟩ := t
    simp only [List.map_cons, List.nodup_cons] at hnd
    simp only [List.map_cons, buildFieldsList] at hok
    have hsti : store.get? i = some (n, g) := hinv1 (i, n, g) (List.mem_cons_self _ _)
    simp only [hsti] at hok
    obtain ⟨f, hforig0, hgmark0, hfm, hfb⟩ := hcomp (i, n, g) (List.mem_cons_self _ _)
    have hforig : orig.get? i = some (n, f) := hforig0
    have hgmark : g = markedORMField n f := hgmark0
    cases h1 : buildOne ams obj registry batching cff n g with
    | error e => simp [h1] at hok
    | ok pr1 =>
      obtain ⟨gf, f2⟩ := pr1
      simp only [h1] at hok
      have hf2 : f2 = f := buildOne_marked hfm hfb (hgmark ▸ h1)
      subst hf2
      cases h2 : buildFieldsList ams obj registry batching cff
          (rest.map (fun t => (t.2.1, FieldRef.decl t.1))) (store.set i (n, f2)) with
      | error e => simp [h2] at hok
      | ok pr2 =>
        obtain ⟨fs3, st3⟩ := pr2
        simp only [h2] at hok
        simp at hok
        rw [← hok.2]
        have hlen : i < store.length := (List.get?_eq_some.mp hsti).1
        refine ih hnd.2 (fun t ht => hcomp t (List.mem_cons_of_mem _ ht)) ?_ ?_ h2 j
        · intro t ht
          have hti : t.1 ≠ i := by
            intro he
            exact hnd.1 (he ▸ List.mem_map.mpr ⟨t, ht, rfl⟩)
          rw [List.get?_set_ne _ _ (Ne.symm hti)]
          exact hinv1 t (List.mem_cons_of_mem _ ht)
        · intro j2 hj2
          by_cases hji : j2 = i
          · subst hji
            rw [List.get?_set_eq_of_lt (n, f2) hlen, hforig]
          · rw [List.get?_set_ne _ _ (fun he => hji he.symm)]
            refine hinv2 j2 (fun n2 g2 hm2 => ?_)
            rcases List.mem_cons.mp hm2 with he | hm3
            · injection he with e1 e23
              exact hji e1
            · exact hj2 n2 g2 hm3

/-- C1 amended: `construct_fields` mutates the declared `ORMField`
objects in place (it stores the resolved `model_attr` and then pops it,
and pops `batching` for relationship fields), so idempotence as claimed
fails in general; it does hold whenever each exposed override name is
declared once and no override sets the `model_attr` or `batching`
option: then a successful call leaves the declared overrides exactly as
it found them, and a second call with the identical inputs returns the
identical result. -/
theorem construct_fields_idempotent_of_clean
    (obj : ObjType) (m : InspectedModel) (registry : String)
    (only_fields exclude_fields : List String) (batching : Bool) (cff : Option String)
    (r : CFResult)
    (hnames : (obj.decls.map Prod.fst).Nodup)
    (hclean : ∀ p ∈ obj.decls, dictContains p.2.kwargs "model_attr" = false ∧
      dictContains p.2.kwargs "batching" = false)
    (hok : construct_fields obj m registry only_fields exclude_fields batching cff =
      Except.ok r) :
    r.decls2 = obj.decls ∧
    construct_fields { obj with decls := r.decls2 } m registry only_fields exclude_fields
      batching cff = Except.ok r := by
  have hmain : r.decls2 = obj.decls := by
    simp only [construct_fields] at hok
    have hperm : (sortByCounter (withIndices obj.decls 0)).Perm (withIndices obj.decls 0) :=
      sortByCounter_perm _
    have hclean2 : ∀ t ∈ sortByCounter (withIndices obj.decls 0),
        dictContains t.2.2.kwargs "model_attr" = false ∧
        dictContains t.2.2.kwargs "batching" = false := by
      intro t ht
      obtain ⟨i, n, f⟩ := t
      have hwi : (i, n, f) ∈ withIndices obj.decls 0 := hperm.mem_iff.mp ht
      obtain ⟨_, hget⟩ := withIndices_get? obj.decls 0 hwi
      simp only [Nat.sub_zero] at hget
      exact hclean (n, f) (List.get?_mem hget)
    cases hA : setModelAttrsList (allModelAttrs m) obj.name
        (sortByCounter (withIndices obj.decls 0)) with
    | error e =>
      simp only [hA] at hok
      simp at hok
    | ok sorted2 =>
      simp only [hA] at hok
      have hs2 : sorted2 = (sortByCounter (withIndices obj.decls 0)).map
          (fun t => (t.1, t.2.1, markedORMField t.2.1 t.2.2)) :=
        setModelAttrsList_clean (fun t ht => (hclean2 t ht).1) hA
      have hidxnd : ((sortByCounter (withIndices obj.decls 0)).map (fun t => t.1)).Nodup :=
        ((hperm.map (fun t => t.1)).symm).nodup (withIndices_idx_nodup obj.decls 0)
      have hnamend : ((sortByCounter (withIndices obj.decls 0)).map
          (fun t => t.2.1)).Nodup := by
        have hwin : ((withIndices obj.decls 0).map (fun t => t.2.1)).Nodup := by
          rw [withIndices_map_name obj.decls 0]
          exact hnames
        exact ((hperm.map (fun t => t.2.1)).symm).nodup hwin
      have hs2idx : (sorted2.map (fun t => t.1)).Nodup := by
        rw [hs2, List.map_map]
        simpa [Function.comp] using hidxnd
      have hs2name : (sorted2.map (fun t => t.2.1)).Nodup := by
        rw [hs2, List.map_map]
        simpa [Function.comp] using hnamend
      have hcomp : ∀ t ∈ sorted2, ∃ f, obj.decls.get? t.1 = some (t.2.1, f) ∧
          t.2.2 = markedORMField t.2.1 f ∧
          dictContains f.kwargs "model_attr" = false ∧
          dictContains f.kwargs "batching" = false := by
        intro t ht
        rw [hs2] at ht
        obtain ⟨u, hu, rfl⟩ := List.mem_map.mp ht
        obtain ⟨i, n, f⟩ := u
        have hwi : (i, n, f) ∈ withIndices obj.decls 0 := hperm.mem_iff.mp hu
        obtain ⟨_, hget⟩ := withIndices_get? obj.decls 0 hwi
        simp only [Nat.sub_zero] at hget
        have hcf := hclean (n, f) (List.get?_mem hget)
        exact ⟨f, hget, rfl, hcf.1, hcf.2⟩
      have hinv1 : ∀ t ∈ sorted2, (applyUpdates obj.decls sorted2).get? t.1 =
          some (t.2.1, t.2.2) := by
        intro t ht
        obtain ⟨i, n, g⟩ := t
        obtain ⟨f, hget, _, _, _⟩ := hcomp (i, n, g) ht
        have hlen : i < obj.decls.length := (List.get?_eq_some.mp hget).1
        exact applyUpdates_get_of_mem hs2idx ht hlen
      have hinv2 : ∀ j, (∀ n2 g, (j, n2, g) ∉ sorted2) →
          (applyUpdates obj.decls sorted2).get? j = obj.decls.get? j :=
        fun j hj => applyUpdates_get_of_not_mem hj
      obtain ⟨tail, hrefs, htail⟩ := ormFieldRefs_split sorted2
        (autoOrmFieldNames (allModelAttrs m) only_fields exclude_fields) hs2name
      rw [hrefs, buildFieldsList_append] at hok
      cases hB1 : buildFieldsList (allModelAttrs m) obj registry batching cff
          (sorted2.map (fun t => (t.2.1, FieldRef.decl t.1)))
          (applyUpdates obj.decls sorted2) with
      | error e =>
        simp only [hB1] at hok
        simp at hok
      | ok pr1 =>
        obtain ⟨fs1, stM⟩ := pr1
        simp only [hB1] at hok
        cases hB2 : buildFieldsList (allModelAttrs m) obj registry batching cff tail stM with
        | error e =>
          simp only [hB2] at hok
          simp at hok
        | ok pr2 =>
          obtain ⟨fs2, stF⟩ := pr2
          simp only [hB2] at hok
          simp at hok
          have hstF : stF = stM :=
            buildFieldsList_autos_store _ _ _ _ _ htail hB2
          have hstM : ∀ j, stM.get? j = obj.decls.get? j :=
            buildFieldsList_customs_restore _ _ _ _ _ _ hs2idx hcomp hinv1 hinv2 hB1
          have hstMeq : stM = obj.decls := List.ext_get?_iff.mpr hstM
          rw [← hok]
          simp [hstF, hstMeq]
  refine ⟨hmain, ?_⟩
  rw [hmain]
  have hobj : { obj with decls := obj.decls } = obj := rfl
  rw [hobj]
  exact hok

/-- A clean override declaration: no `model_attr`, no `batching`
option set. -/
def c1cleanObj : ObjType :=
  { name := "T", custom_resolvers := [],
    decls := [("a", ⟨4, [("description", PyVal.str "d")]⟩)] }

/-- The result `construct_fields` returns for the clean declaration. -/
def c1cleanResult : CFResult :=
  { fields :=
      [("a", GField.fromColumn ⟨AttrKind.column, "cola"⟩ "reg" (Resolver.attr "T" "a")
        [("description", PyVal.str "d")]),
        ("n", GField.fromColumn ⟨AttrKind.column, "coln"⟩ "reg" (Resolver.attr "T" "n") [])],
    decls2 := [("a", ⟨4, [("description", PyVal.str "d")]⟩)] }

/-- C1 amended, witness: on the clean declaration the call leaves the
declared overrides unchanged and a second call returns the identical
result. -/
theorem construct_fields_idempotent_witness :
    c1cleanResult.decls2 = c1cleanObj.decls ∧
    construct_fields { c1cleanObj with decls := c1cleanResult.decls2 } c1model "reg" [] []
      false Option.none = Except.ok c1cleanResult :=
  construct_fields_idempotent_of_clean c1cleanObj c1model "reg" [] [] false
    Option.none c1cleanResult (by decide) (by decide) rfl

end GrapheneSqlalchemy
